import Mathlib

/-!
Verification of the extraction-and-formatting pipeline of the
`obsidian-ai-image-ocr-with-PDF` plugin, as a shallow embedding of the
TypeScript sources (`src/main.ts`, `src/utils/pdf.ts`, `src/utils/image.ts`,
`src/utils/embed.ts`, `src/types.ts`) in Lean.

Conventions of the embedding:
* JavaScript strings are `List Char`; binary `ArrayBuffer`s are
  `List (Fin 256)` (the byte values delivered by a `Uint8Array` view).
* Asynchronous collaborators (network fetch, vault reads, image decoding,
  provider calls) become explicit oracle parameters; a collaborator that can
  reject/throw returns `Except`, one that resolves with `null` on failure
  returns `Option`.
* JavaScript exceptions are modelled with `Except`; a `try`/`catch` block is
  a `match` on the body's result.
-/

namespace OCR

/-! ### JavaScript string primitives -/

/-- ASCII lower-casing of one character.  This is exactly the case folding
performed by a case-insensitive (`/i`) JavaScript regex without the `u` flag
on ASCII pattern characters: only `A`–`Z` fold, every other code point is
left unchanged (legacy canonicalization never folds a non-ASCII character to
an ASCII one). -/
def lowerChar (c : Char) : Char :=
  match c with
  | 'A' => 'a' | 'B' => 'b' | 'C' => 'c' | 'D' => 'd' | 'E' => 'e'
  | 'F' => 'f' | 'G' => 'g' | 'H' => 'h' | 'I' => 'i' | 'J' => 'j'
  | 'K' => 'k' | 'L' => 'l' | 'M' => 'm' | 'N' => 'n' | 'O' => 'o'
  | 'P' => 'p' | 'Q' => 'q' | 'R' => 'r' | 'S' => 's' | 'T' => 't'
  | 'U' => 'u' | 'V' => 'v' | 'W' => 'w' | 'X' => 'x' | 'Y' => 'y'
  | 'Z' => 'z'
  | c => c

/-- The whitespace class of JavaScript (`\s`, `String.prototype.trim`):
space, tab, line feed, vertical tab, form feed, carriage return, NBSP,
BOM and the Unicode line/paragraph separators. -/
def isJsSpace (c : Char) : Bool :=
  c = ' ' ∨ c = '\t' ∨ c = '\n' ∨ c = '\r' ∨
  c = Char.ofNat 11 ∨ c = Char.ofNat 12 ∨ c = Char.ofNat 0xa0 ∨
  c = Char.ofNat 0xfeff ∨ c = Char.ofNat 0x2028 ∨ c = Char.ofNat 0x2029

/-- `String.prototype.trim`: drop leading and trailing whitespace. -/
def trimJs (s : List Char) : List Char :=
  ((s.dropWhile isJsSpace).reverse.dropWhile isJsSpace).reverse

/-- The characters matched by `.` in a JavaScript regex without the `s`
flag: everything except the four line terminators. -/
def jsDot (c : Char) : Bool :=
  ¬ (c = '\n' ∨ c = '\r' ∨ c = Char.ofNat 0x2028 ∨ c = Char.ofNat 0x2029)

/-- The part of `l` after the last occurrence of `sep` (all of `l` when
`sep` does not occur).  This is `l.split(sep).pop()`. -/
def afterLastChar (sep : Char) (l : List Char) : List Char :=
  (l.reverse.takeWhile (fun c => c ≠ sep)).reverse

/-- `String.prototype.indexOf` for a pattern list: the least index at which
`pat` occurs as a contiguous sublist of `s`. -/
def findSubstr (pat : List Char) : List Char → Option Nat
  | [] => if pat = [] then some 0 else none
  | c :: rest =>
    if pat.isPrefixOf (c :: rest) then some 0
    else (findSubstr pat rest).map (· + 1)

/-- JavaScript `x || d` on strings: the empty string falls back to `d`. -/
def orDefaultL (s d : List Char) : List Char := if s = [] then d else s

/-! ### Base64 (the `btoa` builtin)

`arrayBufferToBase64` in `src/utils/image.ts` turns the buffer into a binary
string of char codes and applies `btoa`; since every code is a byte, the
result is exactly the standard base64 encoding of the byte sequence, with
padding and no line wrapping. -/

/-- The standard base64 alphabet, in value order. -/
def base64Chars : List Char :=
  "ABCDEFGHIJKLMNOPQRSTUVWXYZabcdefghijklmnopqrstuvwxyz0123456789+/".toList

/-- Character for a 6-bit value. -/
def b64char (n : Nat) : Char := base64Chars.getD n 'A'

/-- Value of a base64 character (64 for characters outside the alphabet). -/
def b64val (c : Char) : Nat := base64Chars.findIdx (· == c)

/-- Standard base64 encoding of a byte sequence (the semantics of `btoa` on
a binary string). -/
def base64Encode : List (Fin 256) → List Char
  | [] => []
  | [a] =>
    [b64char (a.val / 4), b64char (a.val % 4 * 16), '=', '=']
  | [a, b] =>
    [b64char (a.val / 4), b64char (a.val % 4 * 16 + b.val / 16),
     b64char (b.val % 16 * 4), '=']
  | a :: b :: c :: rest =>
    b64char (a.val / 4) :: b64char (a.val % 4 * 16 + b.val / 16) ::
    b64char (b.val % 16 * 4 + c.val / 64) :: b64char (c.val % 64) ::
    base64Encode rest

/-- Base64 decoding: the inverse used to state what a stored base64 payload
"decodes to". -/
def base64Decode : List Char → List Nat
  | a :: b :: c :: d :: rest =>
    if c = '=' then
      [b64val a * 4 + b64val b / 16]
    else if d = '=' then
      [b64val a * 4 + b64val b / 16, b64val b % 16 * 16 + b64val c / 4]
    else
      (b64val a * 4 + b64val b / 16) ::
      (b64val b % 16 * 16 + b64val c / 4) ::
      (b64val c % 4 * 64 + b64val d) ::
      base64Decode rest
  | _ => []

/-- `arrayBufferToBase64` (src/utils/image.ts): reduce the bytes to a binary
string and apply `btoa`. -/
def arrayBufferToBase64 (buffer : List (Fin 256)) : List Char :=
  base64Encode buffer

/-! ### src/utils/image.ts -/

/-- `getImageMimeType`: mime type from the lower-cased part of the file name
after the last dot (`fileName.split(".").pop()?.toLowerCase()`). -/
def getImageMimeType (fileName : List Char) : List Char :=
  let ext := (afterLastChar '.' fileName).map lowerChar
  if ext = "png".toList then "image/png".toList
  else if ext = "jpg".toList ∨ ext = "jpeg".toList then "image/jpeg".toList
  else if ext = "webp".toList then "image/webp".toList
  else if ext = "gif".toList then "image/gif".toList
  else if ext = "bmp".toList then "image/bmp".toList
  else if ext = "svg".toList then "image/svg+xml".toList
  else if ext = "pdf".toList then "application/pdf".toList
  else "application/octet-stream".toList

/-- `isPdfFile`: the test `/\.pdf$/i.test(fileName)`. -/
def isPdfFile (fileName : List Char) : Bool :=
  (".pdf".toList).isSuffixOf (fileName.map lowerChar)

/-! ### src/utils/pdf.ts -/

/-- The byte values of the ASCII string `%PDF-`. -/
def pdfMagic : List (Fin 256) := [37, 80, 68, 70, 45]

/-- `isPdfBuffer`: compare the first five bytes of the buffer (read through a
`Uint8Array`, turned into a string with `String.fromCharCode`) with `%PDF-`.
A buffer shorter than five bytes yields a shorter string and never matches. -/
def isPdfBuffer (buffer : List (Fin 256)) : Bool :=
  buffer.take 5 = pdfMagic

/-- One successfully rendered page as produced by the canvas collaborator:
the PNG bytes encoded by `canvas.toDataURL("image/png")` and the rounded
viewport dimensions.  `convertPdfToImages` receives this through its render
oracle; a page whose `getPage`/`render` rejects, or whose canvas context is
unavailable (the `continue` branch), is `none`. -/
structure RenderedPage where
  png : List (Fin 256)
  width : Nat
  height : Nat

/-- Element of the sequence returned by `convertPdfToImages`. -/
structure PDFPageImage where
  pageNumber : Nat
  base64 : List Char
  width : Nat
  height : Nat
  deriving DecidableEq

/-- The data-URL marker produced by `canvas.toDataURL("image/png")`. -/
def pngDataUrlMark : List Char := "data:image/png;base64,".toList

/-- `canvas.toDataURL("image/png")`: marker followed by the base64 PNG. -/
def canvasToDataUrl (png : List (Fin 256)) : List Char :=
  pngDataUrlMark ++ base64Encode png

/-- `dataUrl.replace(/^data:image\/png;base64,/, "")`: strip the anchored
marker once if present. -/
def stripPngDataUrl (s : List Char) : List Char :=
  if pngDataUrlMark.isPrefixOf s then s.drop pngDataUrlMark.length else s

/-- The page loop of `convertPdfToImages`: for `n` remaining pages starting
at `pageNum`, render each page independently; a successful render is pushed
with its page number, a failed one is skipped. -/
def convertPdfGo (render : Nat → Option RenderedPage) :
    Nat → Nat → List PDFPageImage
  | _, 0 => []
  | pageNum, n + 1 =>
    match render pageNum with
    | some r =>
      { pageNumber := pageNum,
        base64 := stripPngDataUrl (canvasToDataUrl r.png),
        width := r.width, height := r.height } ::
        convertPdfGo render (pageNum + 1) n
    | none => convertPdfGo render (pageNum + 1) n

/-- `convertPdfToImages` after a successful document load: process pages
`1..pagesToProcess` where `pagesToProcess = Math.min(totalPages, maxPages)`. -/
def convertPdfToImages (totalPages maxPages : Nat)
    (render : Nat → Option RenderedPage) : List PDFPageImage :=
  convertPdfGo render 1 (min totalPages maxPages)

/-- The `maxPages` argument `processPdfFile` (src/main.ts) passes to
`convertPdfToImages`: `this.settings.pdfMaxPages ?? 50`.  Nullish coalescing
substitutes 50 only for a missing value, never for 0. -/
def processPdfMaxPages (pdfMaxPages : Option Nat) : Nat :=
  pdfMaxPages.getD 50

/-! ### A backtracking matcher for the embed regexes

Every regex used by the Locator is a sequence of literals and lazy
quantifiers over a character class (`/!\[\[(.+?)\]\]/`,
`/!\[.*?\]\((.+?)\)/` and their captureless variants).  `matchSeq` matches
such a sequence at the head of a string, trying shorter quantifier
expansions first and backtracking, exactly as the JavaScript engine does;
`searchFirst` tries successive start positions, yielding the leftmost
match. -/

inductive RegexItem where
  | lit (t : List Char)
  | lazy (minLen : Nat) (p : Char → Bool)

/-- Match a sequence of items at the head of `s`; return the consumed piece
of each item. -/
def matchSeq : List RegexItem → List Char → Option (List (List Char))
  | [], _ => some []
  | .lit t :: items, s =>
    if t.isPrefixOf s then (matchSeq items (s.drop t.length)).map (t :: ·)
    else none
  | .lazy m p :: items, s =>
    (List.range (s.length + 1)).findSome? fun len =>
      if m ≤ len ∧ (s.take len).all p then
        (matchSeq items (s.drop len)).map ((s.take len) :: ·)
      else none

/-- Leftmost match of an item sequence in `s`: the start index and the
pieces. -/
def searchFirst (items : List RegexItem) (s : List Char) :
    Option (Nat × List (List Char)) :=
  (List.range (s.length + 1)).findSome? fun i =>
    (matchSeq items (s.drop i)).map (fun ps => (i, ps))

/-- `/!\[\[(.+?)\]\]/` -/
def wikiEmbedItems : List RegexItem :=
  [.lit "![[".toList, .lazy 1 jsDot, .lit "]]".toList]

/-- `/!\[\[.*?\]\]/` (the captureless variant used on the selection in
src/main.ts). -/
def wikiFullItems : List RegexItem :=
  [.lit "![[".toList, .lazy 0 jsDot, .lit "]]".toList]

/-- `/!\[.*?\]\((.+?)\)/` -/
def mdEmbedItems : List RegexItem :=
  [.lit "![".toList, .lazy 0 jsDot, .lit "](".toList, .lazy 1 jsDot,
   .lit ")".toList]

/-- `/!\[.*?\]\(.*?\)/` (the captureless variant used on the selection in
src/main.ts). -/
def mdFullItems : List RegexItem :=
  [.lit "![".toList, .lazy 0 jsDot, .lit "](".toList, .lazy 0 jsDot,
   .lit ")".toList]

/-- `s.match(/!\[\[(.+?)\]\]/)`: the full match text and the capture. -/
def matchWikiEmbed (s : List Char) : Option (List Char × List Char) :=
  (searchFirst wikiEmbedItems s).map fun r => (r.2.flatten, r.2.getD 1 [])

/-- `s.match(/!\[.*?\]\((.+?)\)/)`: the full match text and the capture. -/
def matchMdEmbed (s : List Char) : Option (List Char × List Char) :=
  (searchFirst mdEmbedItems s).map fun r => (r.2.flatten, r.2.getD 3 [])

/-! ### src/utils/embed.ts -/

/-- The extensions accepted by the Locator's `imageExt` regex
`/\.(png|jpe?g|gif|webp|bmp|svg|pdf)$/i`. -/
def embedImageExts : List (List Char) :=
  ["png", "jpg", "jpeg", "gif", "webp", "bmp", "svg", "pdf"].map String.toList

/-- The Locator's `isImage` predicate: the case-insensitive suffix test of
the `imageExt` regex. -/
def isImage (link : List Char) : Bool :=
  embedImageExts.any fun e => ('.' :: e).isSuffixOf (link.map lowerChar)

/-- `/^https?:\/\//i.test(link)` -/
def isExternalLink (link : List Char) : Bool :=
  ("http://".toList).isPrefixOf (link.map lowerChar) ||
  ("https://".toList).isPrefixOf (link.map lowerChar)

/-- `match[1].split("|")[0].trim()` for a wiki embed capture. -/
def linkOfWikiGroup (g : List Char) : List Char :=
  trimJs (g.takeWhile fun c => c ≠ '|')

/-- `match[1].split(" ")[0].replace(/["']/g, "")` for a markdown embed
capture: first space-separated token with every quote removed. -/
def linkOfMdGroup (g : List Char) : List Char :=
  (g.takeWhile fun c => c ≠ ' ').filter
    fun c => ¬ (c = Char.ofNat 34 ∨ c = Char.ofNat 39)

inductive EmbedType where
  | internal
  | external
  deriving DecidableEq

/-- Result of the Locator. -/
structure EmbedResult where
  link : List Char
  isExternal : Bool
  embedType : EmbedType
  embedText : List Char
  deriving DecidableEq

/-- The two pattern checks `findRelevantImageEmbed` applies to one piece of
text (the selection, or one scanned line): a wiki embed whose link passes
`isImage` wins; otherwise a markdown embed whose link passes `isImage`. -/
def mdCheckEmbed (line : List Char) : Option EmbedResult :=
  match matchMdEmbed line with
  | some (full, g) =>
    if isImage (linkOfMdGroup g) then
      some ⟨linkOfMdGroup g, isExternalLink (linkOfMdGroup g), .external,
        full⟩
    else none
  | none => none

def checkLineForEmbed (line : List Char) : Option EmbedResult :=
  match matchWikiEmbed line with
  | some (full, g) =>
    if isImage (linkOfWikiGroup g) then
      some ⟨linkOfWikiGroup g, false, .internal, full⟩
    else mdCheckEmbed line
  | none => mdCheckEmbed line

/-- The editor collaborator: current selection, the document lines, and the
cursor line. -/
structure EditorState where
  selection : List Char
  lines : List (List Char)
  cursorLine : Nat

/-- The upward line scan `for (let i = cursor.line; i >= 0; i--)`. -/
def searchLinesUp (lines : List (List Char)) : Nat → Option EmbedResult
  | 0 => checkLineForEmbed (lines.getD 0 [])
  | i + 1 =>
    checkLineForEmbed (lines.getD (i + 1) []) <|> searchLinesUp lines i

/-- `findRelevantImageEmbed`: the selection checks, then the upward line
scan. -/
def findRelevantImageEmbed (ed : EditorState) : Option EmbedResult :=
  checkLineForEmbed ed.selection <|> searchLinesUp ed.lines ed.cursorLine

/-! ### src/main.ts — batch folder flow -/

/-- A file offered by the folder picker. -/
structure FolderFile where
  name : List Char
  deriving DecidableEq

/-- The extensions of the folder filter `/\.(png|jpe?g|webp|gif|bmp|svg)$/i`
(no `pdf`). -/
def folderImageExts : List (List Char) :=
  ["png", "jpg", "jpeg", "webp", "gif", "bmp", "svg"].map String.toList

/-- The folder filter predicate of `extractTextFromImageFolder`. -/
def folderImageFilter (name : List Char) : Bool :=
  folderImageExts.any fun e => ('.' :: e).isSuffixOf (name.map lowerChar)

/-- `Array.from(files).filter(file => /\.(png|jpe?g|webp|gif|bmp|svg)$/i.test(file.name))` -/
def selectBatchImages (files : List FolderFile) : List FolderFile :=
  files.filter fun f => folderImageFilter f.name

/-- The opening delimiter of the batch response protocol. -/
def beginMark : List Char := "--- BEGIN IMAGE: ---".toList

/-- The closing delimiter of the batch response protocol. -/
def endMark : List Char := "--- END IMAGE ---".toList

/-- The scan
`response.matchAll(/--- BEGIN IMAGE: ---\s*([\s\S]*?)\s*--- END IMAGE ---/g)`
with `m[1].trim()` applied to every capture.  `matchAll` finds the leftmost
occurrence of the opening literal; the lazy body then ends the match at the
first occurrence of the closing literal after it (the `\s*` fringes only
move whitespace between the capture and its surroundings, which the
subsequent `.trim()` erases); the next iteration resumes after the closing
literal, so matches are non-overlapping and in order of appearance. -/
def extractBlocks (s : List Char) : List (List Char) :=
  match h1 : findSubstr beginMark s with
  | none => []
  | some i =>
    let afterBegin := s.drop (i + beginMark.length)
    match findSubstr endMark afterBegin with
    | none => []
    | some j =>
      trimJs (afterBegin.take j) ::
        extractBlocks (afterBegin.drop (j + endMark.length))
  termination_by s.length
  decreasing_by
    have hs : s ≠ [] := by
      intro he
      rw [he] at h1
      simp [findSubstr, beginMark] at h1
    have hlen : 0 < s.length := List.length_pos.mpr hs
    have hb : 0 < beginMark.length := by decide
    simp only [List.length_drop]
    omega

/-- The content value the batch flow hands to formatting. -/
inductive ContentForFormatting where
  | single (text : List Char)
  | multiple (texts : List (List Char))
  deriving DecidableEq

/-- `matches.length > 1 ? matches : (matches.length === 1 ? matches[0] :
response.trim())` (src/main.ts). -/
def contentForFormatting (response : List Char) : ContentForFormatting :=
  let ms := extractBlocks response
  if 1 < ms.length then .multiple ms
  else
    match ms with
    | [m] => .single m
    | _ => .single (trimJs response)

/-- A provider response laid out according to the delimiter protocol:
separator, block, separator, block, …, trailing separator. -/
def renderBatch : List (List Char) → List (List Char) → List Char
  | sep :: _, [] => sep
  | sep :: seps, b :: bs => sep ++ beginMark ++ b ++ endMark ++ renderBatch seps bs
  | [], _ => []

/-! ### src/main.ts — embedded image command -/

/-- Observable outcome of the `extract-text-from-embedded-image` command.
`processPdf` records that the command handed the buffer to
`processPdfFile`, whose first act is the `pdfjsLib.getDocument` load/parse
in `convertPdfToImages`. -/
inductive EmbedCmdOutcome where
  | noEmbed
  | couldNotRead
  | fileNotFound
  | processPdf (link : List Char) (buffer : List (Fin 256))
  | extractFailed
  | noContent
  | replaceSelection (content : List Char)
  | handled (content : List Char)
  deriving DecidableEq

/-- Line 155 of src/main.ts:
`sel.match(/!\[\[.*?\]\]/) || sel.match(/!\[.*?\]\(.*?\)/)`, keeping the
full match text `embedMatch[0]`. -/
def embedCmdMatch (selection : List Char) : Option (List Char) :=
  ((searchFirst wikiFullItems selection).map fun r => r.2.flatten) <|>
    ((searchFirst mdFullItems selection).map fun r => r.2.flatten)

/-- The command tail once the buffer has been read: PDF routing
(`isPdfFile(link) || isPdfBuffer(arrayBuffer)`), provider call, and
insertion (direct selection replacement when the selection is exactly the
matched embed markup, `handleExtractedContent` otherwise). -/
def embedWithBuffer (selection : List Char) (embed : EmbedResult)
    (extractText : List Char → Except (List Char) (Option (List Char)))
    (ab : List (Fin 256)) : EmbedCmdOutcome :=
  if isPdfFile embed.link || isPdfBuffer ab then .processPdf embed.link ab
  else
    match extractText (arrayBufferToBase64 ab) with
    | .error _ => .extractFailed
    | .ok none => .noContent
    | .ok (some content) =>
      match embedCmdMatch selection with
      | some m =>
        if selection = m then .replaceSelection content
        else .handled content
      | none => .handled content

/-- The `extract-text-from-embedded-image` editor callback (src/main.ts).
`cacheEmbed` and `fileEmbed` are the two collaborator fallbacks
(`findImageEmbedFromCache`, `findImageEmbedInFileContent`); `fetchExternal`
is `fetchExternalImageAsArrayBuffer` (which resolves `null` on failure and
never throws); `resolveRead` is `resolveInternalImagePath` followed by
`vault.readBinary` on success; `extractText` is the provider's
`extractTextFromBase64` (`Except.error` models a rejected call caught by
the surrounding `try`). -/
def embeddedImageCommand (ed : EditorState)
    (cacheEmbed fileEmbed : Option EmbedResult)
    (fetchExternal : List Char → Option (List (Fin 256)))
    (resolveRead : List Char → Option (List (Fin 256)))
    (extractText : List Char → Except (List Char) (Option (List Char))) :
    EmbedCmdOutcome :=
  match (findRelevantImageEmbed ed <|> cacheEmbed) <|> fileEmbed with
  | none => .noEmbed
  | some embed =>
    if embed.isExternal then
      match fetchExternal embed.link with
      | none => .couldNotRead
      | some ab => embedWithBuffer ed.selection embed extractText ab
    else
      match resolveRead embed.link with
      | none => .fileNotFound
      | some ab => embedWithBuffer ed.selection embed extractText ab

/-! ### src/main.ts — provider selection -/

/-- Settings fields consumed by `getProvider`.  The provider identifier is a
plain string: the persisted settings document is untrusted, and the runtime
lookup `factories[provider]` can miss. -/
structure ProviderSettings where
  provider : String
  openaiApiKey : String
  geminiApiKey : String
  ollamaUrl : String
  ollamaModel : String
  lmstudioUrl : String
  lmstudioModel : String
  customApiUrl : String
  customApiModel : String
  customApiKey : String
  customPrompt : String

/-- A constructed provider: `new OpenAIProvider(apiKey, model, url, id,
prompt, name)` or `new GeminiProvider(apiKey, model, prompt, name)`. -/
inductive OCRProviderInstance where
  | openAI (apiKey model url providerId prompt name : String)
  | gemini (apiKey model prompt name : String)
  deriving DecidableEq

/-- `DEFAULT_PROMPT_TEXT` (src/types.ts). -/
def DEFAULT_PROMPT_TEXT : String :=
  "Extract only the raw text from this image. Do not add commentary or explanations. Do not prepend anything. Return only the transcribed text in markdown format. Do not put a markdown codeblock around the returned text."

/-- `String.prototype.trim` on a Lean `String`. -/
def trimString (s : String) : String := String.mk (trimJs s.data)

/-- JavaScript `x || d` on strings. -/
def orDefaultS (s d : String) : String := if s = "" then d else s

/-- `url.replace(/\/$/, "")`: strip one trailing slash. -/
def stripTrailingSlash (s : String) : String :=
  if s.endsWith "/" then s.dropRight 1 else s

/-- `FRIENDLY_PROVIDER_NAMES` (src/types.ts), looked up by
`getFriendlyProviderNames`; the per-provider friendly-name overrides of that
helper live outside these sources and do not affect provider construction. -/
def friendlyProviderName (p : String) : String :=
  if p = "openai" ∨ p = "openai-mini" ∨ p = "openai-4.1" ∨
      p = "openai-4.1-mini" ∨ p = "openai-4.1-nano" then "OpenAI"
  else if p = "gemini" ∨ p = "gemini-lite" ∨ p = "gemini-pro" then "Google"
  else if p = "ollama" then "Ollama"
  else if p = "lmstudio" then "LMStudio"
  else if p = "custom" then "Custom provider"
  else ""

/-- The enumerated provider identifiers (the keys of the `factories`
record). -/
def providerIds : List String :=
  ["openai", "openai-mini", "openai-4.1", "openai-4.1-mini",
   "openai-4.1-nano", "gemini", "gemini-lite", "gemini-pro", "ollama",
   "lmstudio", "custom"]

/-- `getProvider` (src/main.ts): the `factories` record lookup, with
`throw new Error("Unknown provider")` on a miss. -/
def getProvider (s : ProviderSettings) : Except String OCRProviderInstance :=
  let name := friendlyProviderName s.provider
  let prompt := orDefaultS (trimString s.customPrompt) DEFAULT_PROMPT_TEXT
  let openAiFactory : String → OCRProviderInstance := fun model =>
    .openAI s.openaiApiKey model "https://api.openai.com/v1/chat/completions"
      "openai" prompt name
  if s.provider = "gemini" then
    .ok (.gemini s.geminiApiKey "models/gemini-2.5-flash" prompt name)
  else if s.provider = "gemini-lite" then
    .ok (.gemini s.geminiApiKey
      "models/gemini-2.5-flash-lite-preview-06-17" prompt name)
  else if s.provider = "gemini-pro" then
    .ok (.gemini s.geminiApiKey "models/gemini-2.5-pro" prompt name)
  else if s.provider = "openai-mini" then .ok (openAiFactory "gpt-4o-mini")
  else if s.provider = "openai" then .ok (openAiFactory "gpt-4o")
  else if s.provider = "openai-4.1" then .ok (openAiFactory "gpt-4.1")
  else if s.provider = "openai-4.1-mini" then
    .ok (openAiFactory "gpt-4.1-mini")
  else if s.provider = "openai-4.1-nano" then
    .ok (openAiFactory "gpt-4.1-nano")
  else if s.provider = "ollama" then
    .ok (.openAI "" (orDefaultS s.ollamaModel "llama3.2-vision")
      (orDefaultS (stripTrailingSlash s.ollamaUrl) "http://localhost:11434")
      "ollama" prompt name)
  else if s.provider = "lmstudio" then
    .ok (.openAI "" (orDefaultS s.lmstudioModel "gemma3")
      (orDefaultS (stripTrailingSlash s.lmstudioUrl) "http://localhost:1234")
      "lmstudio" prompt name)
  else if s.provider = "custom" then
    .ok (.openAI (orDefaultS s.customApiKey "")
      (orDefaultS s.customApiModel "gpt-4")
      (orDefaultS s.customApiUrl "https://example.com/v1/chat/completions")
      "openai" prompt name)
  else .error "Unknown provider"

/-! ### src/utils/image.ts — `prepareImagePayload` -/

/-- A vault file handle (the `TFile` a `CollectedImage` may carry). -/
structure VaultFile where
  name : List Char
  deriving DecidableEq

/-- `CollectedImage` (src/types.ts). -/
structure CollectedImage where
  source : List Char
  file : Option VaultFile
  isExternal : Bool

/-- `PreparedImage` (src/types.ts). -/
structure PreparedImage where
  name : List Char
  base64 : List Char
  mime : List Char
  size : Nat
  width : Option Nat
  height : Option Nat
  source : List Char
  deriving DecidableEq

/-- The common tail of `prepareImagePayload`: base64-encode the buffer,
probe its dimensions, and build the result record with
`size = arrayBuffer.byteLength`. -/
def prepareFinish (ab : List (Fin 256)) (name source : List Char)
    (probe : List (Fin 256) → Option (Nat × Nat)) : PreparedImage :=
  { name := name, base64 := arrayBufferToBase64 ab,
    mime := getImageMimeType name, size := ab.length,
    width := (probe ab).map Prod.fst, height := (probe ab).map Prod.snd,
    source := source }

/-- The `try` body of `prepareImagePayload` (src/utils/image.ts).
`fetchO` is `fetchExternalImageAsArrayBuffer` (resolves `null` on failure);
`readO` is `vault.readBinary` (may reject); `probe` is
`getImageDimensionsFromArrayBuffer` (resolves `null` on decode failure);
`decodeURI` is the `decodeURIComponent` builtin (may throw `URIError` on a
malformed escape). -/
def prepareBody (img : CollectedImage)
    (fetchO : List Char → Option (List (Fin 256)))
    (readO : VaultFile → Except (List Char) (List (Fin 256)))
    (probe : List (Fin 256) → Option (Nat × Nat))
    (decodeURI : List Char → Except (List Char) (List Char)) :
    Except (List Char) (Option PreparedImage) :=
  if img.isExternal then
    match fetchO img.source with
    | none => .ok none
    | some ab =>
      match decodeURI (afterLastChar '/' img.source) with
      | .error e => .error e
      | .ok dec =>
        .ok (some (prepareFinish ab (orDefaultL dec "image".toList)
          img.source probe))
  else
    match img.file with
    | none => .ok none
    | some f =>
      match readO f with
      | .error e => .error e
      | .ok ab => .ok (some (prepareFinish ab f.name img.source probe))

/-- `prepareImagePayload`: the body wrapped in its `try`/`catch`; the
handler logs and returns `null`. -/
def prepareImagePayload (img : CollectedImage)
    (fetchO : List Char → Option (List (Fin 256)))
    (readO : VaultFile → Except (List Char) (List (Fin 256)))
    (probe : List (Fin 256) → Option (Nat × Nat))
    (decodeURI : List Char → Except (List Char) (List Char)) :
    Except (List Char) (Option PreparedImage) :=
  match prepareBody img fetchO readO probe decodeURI with
  | .ok r => .ok r
  | .error _ => .ok none

/-! ### Spec-side definitions (for refinement claims) -/

/-- The extension of a link in the sense of the spec: the part after the
last dot, absent when the link has no dot. -/
def linkExtension (l : List Char) : Option (List Char) :=
  if '.' ∈ l then some (afterLastChar '.' l) else none

/-- Spec-side image predicate for the Locator: the link's extension,
compared case-insensitively, is one of png, jpg, jpeg, gif, webp, bmp, svg,
pdf. -/
def isImageSpec (link : List Char) : Bool :=
  match linkExtension link with
  | some e => (e.map lowerChar) ∈ embedImageExts
  | none => false

/-- Spec-side filter for the folder batch: the filename's extension,
compared case-insensitively, is one of png, jpg, jpeg, webp, gif, bmp,
svg. -/
def folderImageSpec (name : List Char) : Bool :=
  match linkExtension name with
  | some e => (e.map lowerChar) ∈ folderImageExts
  | none => false

/-! ### Concrete inputs used to instantiate the theorems -/

/-- The bytes of the ASCII string `hello` — not a PDF. -/
def helloBytes : List (Fin 256) := [104, 101, 108, 108, 111]

/-- A renderer that fails on page 2 and succeeds elsewhere. -/
def sampleRender : Nat → Option RenderedPage :=
  fun p => if p = 2 then none else some ⟨helloBytes, 10, 10⟩

/-- Separators without dashes for a sample delimited response. -/
def sampleSeps : List (List Char) := ["\n".toList, "\n\n".toList, "\n".toList]

/-- Two sample block bodies without dashes. -/
def sampleBlocks : List (List Char) := [" Hello ".toList, "World".toList]

/-- A sample delimited two-block response. -/
def sampleResponse : List Char := renderBatch sampleSeps sampleBlocks

/-- An editor whose selection is exactly `![[diagram.png]]`. -/
def sampleEditor : EditorState :=
  { selection := "![[diagram.png]]".toList, lines := [], cursorLine := 0 }

/-- The embed the Locator finds in `sampleEditor`. -/
def sampleEmbed : EmbedResult :=
  { link := "diagram.png".toList, isExternal := false,
    embedType := .internal, embedText := "![[diagram.png]]".toList }

/-- A vault-read oracle that reads `diagram.png` as an empty buffer. -/
def sampleResolve : List Char → Option (List (Fin 256)) :=
  fun l => if l = "diagram.png".toList then some [] else none

/-- A provider oracle answering `Hello world` to everything. -/
def sampleExtract : List Char → Except (List Char) (Option (List Char)) :=
  fun _ => .ok (some ("Hello world".toList))

/-- An editor whose selection is exactly `![[doc.pdf]]`. -/
def samplePdfEditor : EditorState :=
  { selection := "![[doc.pdf]]".toList, lines := [], cursorLine := 0 }

/-- A vault-read oracle that reads `doc.pdf` as the non-PDF `hello` bytes. -/
def samplePdfResolve : List Char → Option (List (Fin 256)) :=
  fun l => if l = "doc.pdf".toList then some helloBytes else none

/-- Settings selecting the `ollama` provider. -/
def sampleSettings : ProviderSettings :=
  { provider := "ollama", openaiApiKey := "", geminiApiKey := "",
    ollamaUrl := "http://localhost:11434/", ollamaModel := "",
    lmstudioUrl := "", lmstudioModel := "", customApiUrl := "",
    customApiModel := "", customApiKey := "", customPrompt := "" }

/-- A local collected image with a vault file handle. -/
def sampleCollected : CollectedImage :=
  { source := "a.png".toList, file := some ⟨"a.png".toList⟩,
    isExternal := false }

/-- A vault-read collaborator that yields the `hello` bytes. -/
def sampleReadOk : VaultFile → Except (List Char) (List (Fin 256)) :=
  fun _ => .ok helloBytes

/-- A vault-read collaborator that rejects. -/
def sampleReadErr : VaultFile → Except (List Char) (List (Fin 256)) :=
  fun _ => .error "read failed".toList

/-- A dimension probe that fails to decode. -/
def sampleProbe : List (Fin 256) → Option (Nat × Nat) := fun _ => none

/-- A `decodeURIComponent` oracle that decodes every string to itself. -/
def sampleDecodeURI : List Char → Except (List Char) (List Char) :=
  fun s => .ok s

/-- The `PreparedImage` built from `sampleCollected` and the `hello`
bytes. -/
def samplePrepared : PreparedImage :=
  prepareFinish helloBytes ("a.png".toList) ("a.png".toList) sampleProbe

/-- Page 1 of the sample rasterization. -/
def samplePage : PDFPageImage :=
  { pageNumber := 1, base64 := stripPngDataUrl (canvasToDataUrl helloBytes),
    width := 10, height := 10 }

end OCR

namespace OCR

/-! ### Lemmas about the primitives -/

theorem lowerChar_dot_iff (c : Char) : lowerChar c = '.' ↔ c = '.' := by
  unfold lowerChar
  split <;> simp_all

theorem b64val_b64char {n : Nat} (h : n < 64) : b64val (b64char n) = n := by
  have : ∀ m : Fin 64, b64val (b64char m.val) = m.val := by decide
  exact this ⟨n, h⟩

theorem b64char_mem {n : Nat} (h : n < 64) : b64char n ∈ base64Chars := by
  have : ∀ m : Fin 64, b64char m.val ∈ base64Chars := by decide
  exact this ⟨n, h⟩

theorem b64char_ne_eq {n : Nat} (h : n < 64) : b64char n ≠ '=' := by
  have : ∀ m : Fin 64, b64char m.val ≠ '=' := by decide
  exact this ⟨n, h⟩

theorem base64Decode_pad2 (a b : Char) :
    base64Decode [a, b, '=', '='] = [b64val a * 4 + b64val b / 16] := by
  simp [base64Decode]

theorem base64Decode_pad1 (a b c : Char) (hc : c ≠ '=') :
    base64Decode [a, b, c, '='] =
      [b64val a * 4 + b64val b / 16, b64val b % 16 * 16 + b64val c / 4] := by
  simp [base64Decode, hc]

theorem base64Decode_chunk (a b c d : Char) (rest : List Char)
    (hc : c ≠ '=') (hd : d ≠ '=') :
    base64Decode (a :: b :: c :: d :: rest) =
      (b64val a * 4 + b64val b / 16) ::
      (b64val b % 16 * 16 + b64val c / 4) ::
      (b64val c % 4 * 64 + b64val d) ::
      base64Decode rest := by
  simp [base64Decode, hc, hd]

theorem base64_roundtrip : (l : List (Fin 256)) →
    base64Decode (base64Encode l) = l.map Fin.val
  | [] => by simp [base64Encode, base64Decode]
  | [a] => by
    have ha := a.isLt
    show base64Decode [b64char (a.val / 4), b64char (a.val % 4 * 16), '=', '=']
      = [a.val]
    rw [base64Decode_pad2, b64val_b64char (by omega), b64val_b64char (by omega)]
    simp only [List.cons.injEq, and_true]
    omega
  | [a, b] => by
    have ha := a.isLt; have hb := b.isLt
    show base64Decode [b64char (a.val / 4), b64char (a.val % 4 * 16 + b.val / 16),
      b64char (b.val % 16 * 4), '='] = [a.val, b.val]
    rw [base64Decode_pad1 _ _ _ (b64char_ne_eq (by omega)),
      b64val_b64char (by omega), b64val_b64char (by omega),
      b64val_b64char (by omega)]
    simp only [List.cons.injEq, and_true]
    omega
  | a :: b :: c :: rest => by
    have ha := a.isLt; have hb := b.isLt; have hc := c.isLt
    have ih := base64_roundtrip rest
    show base64Decode (b64char (a.val / 4) ::
      b64char (a.val % 4 * 16 + b.val / 16) ::
      b64char (b.val % 16 * 4 + c.val / 64) :: b64char (c.val % 64) ::
      base64Encode rest) = a.val :: b.val :: c.val :: rest.map Fin.val
    rw [base64Decode_chunk _ _ _ _ _ (b64char_ne_eq (by omega))
        (b64char_ne_eq (by omega)),
      b64val_b64char (by omega), b64val_b64char (by omega),
      b64val_b64char (by omega), b64val_b64char (by omega), ih]
    simp only [List.cons.injEq, and_true]
    refine ⟨by omega, by omega, by omega⟩

theorem base64Encode_mem {l : List (Fin 256)} {ch : Char}
    (h : ch ∈ base64Encode l) : ch ∈ base64Chars ∨ ch = '=' := by
  induction l using base64Encode.induct with
  | case1 => simp [base64Encode] at h
  | case2 a =>
    have := a.isLt
    simp only [base64Encode, List.mem_cons, List.not_mem_nil, or_false] at h
    rcases h with h | h | h | h
    · exact Or.inl (h ▸ b64char_mem (by omega))
    · exact Or.inl (h ▸ b64char_mem (by omega))
    · exact Or.inr h
    · exact Or.inr h
  | case3 a b =>
    have := a.isLt; have := b.isLt
    simp only [base64Encode, List.mem_cons, List.not_mem_nil, or_false] at h
    rcases h with h | h | h | h
    · exact Or.inl (h ▸ b64char_mem (by omega))
    · exact Or.inl (h ▸ b64char_mem (by omega))
    · exact Or.inl (h ▸ b64char_mem (by omega))
    · exact Or.inr h
  | case4 a b c rest ih =>
    have := a.isLt; have := b.isLt; have := c.isLt
    simp only [base64Encode, List.mem_cons] at h
    rcases h with h | h | h | h | h
    · exact Or.inl (h ▸ b64char_mem (by omega))
    · exact Or.inl (h ▸ b64char_mem (by omega))
    · exact Or.inl (h ▸ b64char_mem (by omega))
    · exact Or.inl (h ▸ b64char_mem (by omega))
    · exact ih h

theorem base64Encode_no_colon (l : List (Fin 256)) :
    ':' ∉ base64Encode l := by
  intro h
  rcases base64Encode_mem h with h' | h'
  · revert h'; decide
  · exact absurd h' (by decide)

/-- A base64 payload never begins with `data:` (so it carries no data-URL
marker): the fifth character would have to be a colon. -/
theorem base64Encode_no_dataUrl (l : List (Fin 256)) :
    ¬ ("data:".toList <+: base64Encode l) := by
  intro h
  exact base64Encode_no_colon l (h.sublist.mem (by decide))

/-! ### `findSubstr` and the block scan -/

theorem findSubstr_cons_none (c : Char) (pat' s : List Char) (h : c ∉ s) :
    findSubstr (c :: pat') s = none := by
  induction s with
  | nil => simp [findSubstr]
  | cons x xs ih =>
    have hx : ¬ ((c :: pat').isPrefixOf (x :: xs) = true) := by
      intro hp
      rcases List.isPrefixOf_iff_prefix.mp hp with ⟨t, ht⟩
      have hcx : c = x := by
        have h2 := congrArg List.head? ht
        simpa using h2
      exact h (by rw [hcx]; exact List.mem_cons_self x xs)
    simp only [findSubstr, if_neg hx]
    rw [ih (fun hm => h (List.mem_cons_of_mem x hm))]
    rfl

theorem findSubstr_cons_append (c : Char) (pat' t : List Char)
    (ht : (c :: pat').isPrefixOf t = true) (sep : List Char)
    (hsep : c ∉ sep) :
    findSubstr (c :: pat') (sep ++ t) = some sep.length := by
  induction sep with
  | nil =>
    cases t with
    | nil => simp at ht
    | cons x xs =>
      simp only [List.nil_append, findSubstr, if_pos ht, List.length_nil]
  | cons y ys ih =>
    have hy : ¬ ((c :: pat').isPrefixOf (y :: (ys ++ t)) = true) := by
      intro hp
      rcases List.isPrefixOf_iff_prefix.mp hp with ⟨u, hu⟩
      have hcy : c = y := by
        have h2 := congrArg List.head? hu
        simpa using h2
      exact hsep (by rw [hcy]; exact List.mem_cons_self y ys)
    show findSubstr (c :: pat') (y :: (ys ++ t)) = some (ys.length + 1)
    simp only [findSubstr, if_neg hy]
    rw [ih (fun hm => hsep (List.mem_cons_of_mem y hm))]
    rfl

theorem findSubstr_beginMark_none {s : List Char} (h : '-' ∉ s) :
    findSubstr beginMark s = none := by
  rw [show beginMark = '-' :: beginMark.tail from rfl]
  exact findSubstr_cons_none _ _ _ h

theorem findSubstr_endMark_none {s : List Char} (h : '-' ∉ s) :
    findSubstr endMark s = none := by
  rw [show endMark = '-' :: endMark.tail from rfl]
  exact findSubstr_cons_none _ _ _ h

theorem findSubstr_beginMark_append {sep t : List Char} (hsep : '-' ∉ sep)
    (ht : beginMark.isPrefixOf t = true) :
    findSubstr beginMark (sep ++ t) = some sep.length := by
  rw [show beginMark = '-' :: beginMark.tail from rfl] at ht ⊢
  exact findSubstr_cons_append _ _ _ ht _ hsep

theorem findSubstr_endMark_append {sep t : List Char} (hsep : '-' ∉ sep)
    (ht : endMark.isPrefixOf t = true) :
    findSubstr endMark (sep ++ t) = some sep.length := by
  rw [show endMark = '-' :: endMark.tail from rfl] at ht ⊢
  exact findSubstr_cons_append _ _ _ ht _ hsep

theorem extractBlocks_no_dash {s : List Char} (h : '-' ∉ s) :
    extractBlocks s = [] := by
  rw [extractBlocks.eq_def]
  split
  · rfl
  · next i heq =>
    rw [findSubstr_beginMark_none h] at heq
    exact absurd heq (by simp)

theorem extractBlocks_step (sep b rest : List Char) (hsep : '-' ∉ sep)
    (hb : '-' ∉ b) :
    extractBlocks (sep ++ (beginMark ++ (b ++ (endMark ++ rest))))
      = trimJs b :: extractBlocks rest := by
  have h1 : findSubstr beginMark
      (sep ++ (beginMark ++ (b ++ (endMark ++ rest)))) = some sep.length :=
    findSubstr_beginMark_append hsep
      (List.isPrefixOf_iff_prefix.mpr ⟨_, rfl⟩)
  have hdrop : (sep ++ (beginMark ++ (b ++ (endMark ++ rest)))).drop
      (sep.length + beginMark.length) = b ++ (endMark ++ rest) := by
    rw [← List.append_assoc, ← List.length_append, List.drop_left]
  have h2 : findSubstr endMark (b ++ (endMark ++ rest)) = some b.length :=
    findSubstr_endMark_append hb (List.isPrefixOf_iff_prefix.mpr ⟨_, rfl⟩)
  have hdrop2 : (b ++ (endMark ++ rest)).drop (b.length + endMark.length)
      = rest := by
    rw [← List.append_assoc, ← List.length_append, List.drop_left]
  rw [extractBlocks.eq_def]
  split
  · next heq => rw [h1] at heq; exact absurd heq (by simp)
  · next i heq =>
    rw [h1] at heq
    injection heq with hi
    subst hi
    simp only [hdrop]
    split
    · next heq2 => rw [h2] at heq2; exact absurd heq2 (by simp)
    · next j heq2 =>
      rw [h2] at heq2
      injection heq2 with hj
      subst hj
      rw [List.take_left, hdrop2]

theorem extractBlocks_renderBatch :
    ∀ (bs seps : List (List Char)), seps.length = bs.length + 1 →
    (∀ x ∈ seps, '-' ∉ x) → (∀ x ∈ bs, '-' ∉ x) →
    extractBlocks (renderBatch seps bs) = bs.map trimJs := by
  intro bs
  induction bs with
  | nil =>
    intro seps hlen hsep _
    cases seps with
    | nil => simp at hlen
    | cons sep seps' =>
      have h0 : seps' = [] := by
        rw [List.length_cons, List.length_nil] at hlen
        exact List.length_eq_zero.mp (by omega)
      subst h0
      simp only [renderBatch, List.map_nil]
      exact extractBlocks_no_dash (hsep sep (List.mem_cons_self _ _))
  | cons b bs ih =>
    intro seps hlen hsep hb
    cases seps with
    | nil => simp at hlen
    | cons sep seps' =>
      simp only [renderBatch, List.map_cons]
      have hassoc : sep ++ beginMark ++ b ++ endMark ++ renderBatch seps' bs
          = sep ++ (beginMark ++ (b ++ (endMark ++ renderBatch seps' bs))) := by
        simp [List.append_assoc]
      rw [hassoc,
        extractBlocks_step sep b (renderBatch seps' bs)
          (hsep sep (List.mem_cons_self _ _)) (hb b (List.mem_cons_self _ _)),
        ih seps' (by rw [List.length_cons, List.length_cons] at hlen; omega)
          (fun x hx => hsep x (List.mem_cons_of_mem _ hx))
          (fun x hx => hb x (List.mem_cons_of_mem _ hx))]

/-- Claim C3: the delimiter scan of the batch flow is a leftmost,
non-overlapping, order-preserving scan (blocks laid out in order are
extracted in order, one per delimiter pair), and the content handed to
formatting is the ordered array of trimmed block texts when more than one
block is found, the lone block's trimmed text when exactly one is found,
and the whole trimmed raw response when none is found. -/
theorem claim_C3 (response : List Char) :
    (1 < (extractBlocks response).length →
      contentForFormatting response = .multiple (extractBlocks response)) ∧
    (∀ m, extractBlocks response = [m] →
      contentForFormatting response = .single m) ∧
    (extractBlocks response = [] →
      contentForFormatting response = .single (trimJs response)) ∧
    (∀ seps bs, seps.length = bs.length + 1 → (∀ x ∈ seps, '-' ∉ x) →
      (∀ x ∈ bs, '-' ∉ x) →
      extractBlocks (renderBatch seps bs) = bs.map trimJs) := by
  refine ⟨?_, ?_, ?_,
    fun seps bs h1 h2 h3 => extractBlocks_renderBatch bs seps h1 h2 h3⟩
  · intro h
    simp only [contentForFormatting]
    rw [if_pos h]
  · intro m hm
    simp [contentForFormatting, hm]
  · intro hm
    simp [contentForFormatting, hm]

theorem claim_C3_witness :
    extractBlocks sampleResponse
        = [trimJs (" Hello ".toList), trimJs ("World".toList)] ∧
    contentForFormatting sampleResponse
        = .multiple (extractBlocks sampleResponse) := by
  have h4 := (claim_C3 sampleResponse).2.2.2 sampleSeps sampleBlocks
    (by decide) (by decide) (by decide)
  refine ⟨h4, ?_⟩
  apply (claim_C3 sampleResponse).1
  rw [show extractBlocks sampleResponse = sampleBlocks.map trimJs from h4]
  decide

/-- Claim C1 (code bug): with the configured `pdfMaxPages` set to 0, the
caller's `this.settings.pdfMaxPages ?? 50` passes the literal 0 through to
`convertPdfToImages`, which processes `min(totalPages, 0) = 0` pages — no
page of a 5-page document is processed, contrary to "0 = unlimited". -/
theorem claim_C1 : processPdfMaxPages (some 0) = 0 ∧
    (∀ render : Nat → Option RenderedPage,
      convertPdfToImages 5 (processPdfMaxPages (some 0)) render = []) ∧
    (convertPdfToImages 5 (processPdfMaxPages (some 0)) sampleRender).length
      ≠ 5 :=
  ⟨rfl, fun _ => rfl, by decide⟩

/-! ### The rasterizer loop -/

theorem stripPng_canvas (png : List (Fin 256)) :
    stripPngDataUrl (canvasToDataUrl png) = base64Encode png := by
  unfold stripPngDataUrl canvasToDataUrl
  rw [if_pos (List.isPrefixOf_iff_prefix.mpr (List.prefix_append _ _)),
    List.drop_left]

theorem convertPdfGo_sublist (r : Nat → Option RenderedPage) :
    ∀ (n s : Nat),
      List.Sublist ((convertPdfGo r s n).map PDFPageImage.pageNumber)
        (List.range' s n)
  | 0, s => by simp [convertPdfGo]
  | n + 1, s => by
    rw [List.range'_succ]
    cases h : r s with
    | some rp =>
      simp only [convertPdfGo, h, List.map_cons]
      exact List.Sublist.cons₂ _ (convertPdfGo_sublist r n (s + 1))
    | none =>
      simp only [convertPdfGo, h]
      exact List.Sublist.cons _ (convertPdfGo_sublist r n (s + 1))

theorem convertPdfGo_filter (r : Nat → Option RenderedPage) (k : Nat) :
    ∀ (n s : Nat),
      convertPdfGo (fun p => if p = k then none else r p) s n
        = (convertPdfGo r s n).filter (fun pg => pg.pageNumber != k)
  | 0, _ => rfl
  | n + 1, s => by
    cases h : r s with
    | some rp =>
      by_cases hs : s = k
      · subst hs
        simp only [convertPdfGo, h, if_pos rfl]
        rw [convertPdfGo_filter r s n (s + 1)]
        simp [List.filter_cons]
      · simp only [convertPdfGo, h, if_neg hs]
        rw [convertPdfGo_filter r k n (s + 1)]
        simp [List.filter_cons, hs]
    | none =>
      by_cases hs : s = k
      · subst hs
        simp only [convertPdfGo, h, if_pos rfl]
        exact convertPdfGo_filter r s n (s + 1)
      · simp only [convertPdfGo, h, if_neg hs]
        exact convertPdfGo_filter r k n (s + 1)

theorem convertPdfGo_base64 (r : Nat → Option RenderedPage) :
    ∀ (n s : Nat) (pg : PDFPageImage), pg ∈ convertPdfGo r s n →
      ∃ rp, r pg.pageNumber = some rp ∧ pg.base64 = base64Encode rp.png
  | 0, s, pg, h => by simp [convertPdfGo] at h
  | n + 1, s, pg, h => by
    cases hr : r s with
    | some rp =>
      simp only [convertPdfGo, hr] at h
      rcases List.mem_cons.mp h with he | ht
      · refine ⟨rp, ?_, ?_⟩
        · rw [he]; exact hr
        · rw [he]; exact stripPng_canvas rp.png
      · exact convertPdfGo_base64 r n (s + 1) pg ht
    | none =>
      simp only [convertPdfGo, hr] at h
      exact convertPdfGo_base64 r n (s + 1) pg h

/-- Claim C4: for a positive page bound, the rasterizer returns at most
`min(totalPages, maxPages)` page images; their page numbers form a strictly
increasing subsequence of `1..min(totalPages, maxPages)`; and a failure
rendering one page only removes that page from the output, leaving every
other page and its numbering untouched and aborting nothing. -/
theorem claim_C4 (totalPages maxPages : Nat)
    (render : Nat → Option RenderedPage) (hpos : 0 < maxPages) :
    (convertPdfToImages totalPages maxPages render).length
        ≤ min totalPages maxPages ∧
    List.Sublist
      ((convertPdfToImages totalPages maxPages render).map
        PDFPageImage.pageNumber)
      (List.range' 1 (min totalPages maxPages)) ∧
    ∀ k, convertPdfToImages totalPages maxPages
        (fun p => if p = k then none else render p)
      = (convertPdfToImages totalPages maxPages render).filter
          (fun pg => pg.pageNumber != k) := by
  refine ⟨?_, convertPdfGo_sublist render _ 1,
    fun k => convertPdfGo_filter render k _ 1⟩
  have h := (convertPdfGo_sublist render (min totalPages maxPages) 1).length_le
  simpa [List.length_range'] using h

theorem claim_C4_witness :
    (0 : Nat) < 2 ∧ (convertPdfToImages 3 2 sampleRender).length ≤ min 3 2 :=
  ⟨by decide, (claim_C4 3 2 sampleRender (by decide)).1⟩

/-! ### Suffix tests versus extensions -/

theorem takeWhile_append_cons (p : Char → Bool) :
    ∀ (a : List Char) (b : Char) (c : List Char), (∀ x ∈ a, p x = true) →
      p b = false → (a ++ b :: c).takeWhile p = a
  | [], b, c, _, hb => by simp [List.takeWhile, hb]
  | x :: a, b, c, ha, hb => by
    have hx := ha x (List.mem_cons_self x a)
    simp only [List.cons_append, List.takeWhile, hx]
    show x :: (a ++ b :: c).takeWhile p = x :: a
    rw [takeWhile_append_cons p a b c
      (fun y hy => ha y (List.mem_cons_of_mem x hy)) hb]

theorem dropWhile_dot_mem :
    ∀ (m : List Char), '.' ∈ m →
      ∃ t, m.dropWhile (fun c => c ≠ '.') = '.' :: t
  | [], hm => absurd hm (by simp)
  | x :: m', hm => by
    by_cases hx : x = '.'
    · subst hx
      exact ⟨m', by simp [List.dropWhile]⟩
    · have hm' : '.' ∈ m' := by
        rcases List.mem_cons.mp hm with h | h
        · exact absurd h.symm hx
        · exact h
      obtain ⟨t, ht⟩ := dropWhile_dot_mem m' hm'
      refine ⟨t, ?_⟩
      rw [List.dropWhile_cons, if_pos (by simp [hx]), ht]

theorem dot_suffix_iff {e l : List Char} (he : '.' ∉ e) :
    ('.' :: e) <:+ l ↔ ('.' ∈ l ∧ afterLastChar '.' l = e) := by
  constructor
  · rintro ⟨pre, rfl⟩
    refine ⟨by simp, ?_⟩
    unfold afterLastChar
    rw [List.reverse_append, List.reverse_cons, List.append_assoc]
    rw [show (['.'] ++ pre.reverse) = '.' :: pre.reverse from rfl]
    rw [takeWhile_append_cons _ e.reverse '.' pre.reverse
      (fun x hx => by
        simp only [decide_eq_true_eq]
        exact fun heq => he (heq ▸ List.mem_reverse.mp hx))
      (by simp)]
    exact List.reverse_reverse e
  · rintro ⟨hmem, hafter⟩
    have h1 : l.reverse.takeWhile (fun c => c ≠ '.') = e.reverse := by
      have h2 := congrArg List.reverse hafter
      rwa [afterLastChar, List.reverse_reverse] at h2
    obtain ⟨t, ht⟩ := dropWhile_dot_mem l.reverse (List.mem_reverse.mpr hmem)
    have hsplit : l.reverse = e.reverse ++ '.' :: t := by
      conv_lhs => rw [← List.takeWhile_append_dropWhile
        (p := fun c => c ≠ '.') (l := l.reverse)]
      rw [h1, ht]
    refine ⟨t.reverse, ?_⟩
    have h3 := congrArg List.reverse hsplit
    rw [List.reverse_reverse] at h3
    rw [h3]
    simp [List.reverse_append, List.append_assoc]

theorem afterLast_map_lower (l : List Char) :
    afterLastChar '.' (l.map lowerChar)
      = (afterLastChar '.' l).map lowerChar := by
  unfold afterLastChar
  have hq : ((fun c => decide (c ≠ '.')) ∘ lowerChar)
      = fun c => decide (c ≠ '.') := by
    funext c
    simp only [Function.comp, decide_eq_decide]
    exact not_congr (lowerChar_dot_iff c)
  rw [← List.map_reverse, List.takeWhile_map, hq, ← List.map_reverse]

theorem anySuffix_iff {exts : List (List Char)}
    (hd : ∀ e ∈ exts, '.' ∉ e) (name : List Char) :
    (exts.any fun e => ('.' :: e).isSuffixOf (name.map lowerChar)) = true ↔
    ('.' ∈ name ∧ (afterLastChar '.' name).map lowerChar ∈ exts) := by
  rw [List.any_eq_true]
  constructor
  · rintro ⟨e, he, hsuf⟩
    obtain ⟨hmem, hafter⟩ :=
      (dot_suffix_iff (hd e he)).mp (List.isSuffixOf_iff_suffix.mp hsuf)
    constructor
    · rcases List.mem_map.mp hmem with ⟨c, hc, hlc⟩
      have hcd : c = '.' := (lowerChar_dot_iff c).mp hlc
      exact hcd ▸ hc
    · rw [← afterLast_map_lower, hafter]
      exact he
  · rintro ⟨hmem, hin⟩
    refine ⟨(afterLastChar '.' name).map lowerChar, hin, ?_⟩
    apply List.isSuffixOf_iff_suffix.mpr
    apply (dot_suffix_iff (hd _ hin)).mpr
    refine ⟨List.mem_map.mpr ⟨'.', hmem, rfl⟩, ?_⟩
    exact afterLast_map_lower name

theorem isImage_iff_spec (link : List Char) :
    isImage link = true ↔ isImageSpec link = true := by
  have hd : ∀ e ∈ embedImageExts, '.' ∉ e := by decide
  unfold isImage
  rw [anySuffix_iff hd]
  unfold isImageSpec linkExtension
  by_cases hm : '.' ∈ link
  · rw [if_pos hm]; simp [hm]
  · rw [if_neg hm]; simp [hm]

theorem folder_iff_spec (name : List Char) :
    folderImageFilter name = true ↔ folderImageSpec name = true := by
  have hd : ∀ e ∈ folderImageExts, '.' ∉ e := by decide
  unfold folderImageFilter
  rw [anySuffix_iff hd]
  unfold folderImageSpec linkExtension
  by_cases hm : '.' ∈ name
  · rw [if_pos hm]; simp [hm]
  · rw [if_neg hm]; simp [hm]

/-! ### The Locator only returns image links -/

theorem mdCheckEmbed_isImage {line : List Char} {r : EmbedResult}
    (h : mdCheckEmbed line = some r) : isImage r.link = true := by
  unfold mdCheckEmbed at h
  split at h
  · split at h
    · next hi =>
      injection h with he
      rw [← he]
      exact hi
    · exact absurd h (by simp)
  · exact absurd h (by simp)

theorem checkLine_isImage {line : List Char} {r : EmbedResult}
    (h : checkLineForEmbed line = some r) : isImage r.link = true := by
  unfold checkLineForEmbed at h
  split at h
  · split at h
    · next hi =>
      injection h with he
      rw [← he]
      exact hi
    · exact mdCheckEmbed_isImage h
  · exact mdCheckEmbed_isImage h

theorem searchLinesUp_isImage (lines : List (List Char)) :
    ∀ (i : Nat) (r : EmbedResult), searchLinesUp lines i = some r →
      isImage r.link = true
  | 0, r, h => checkLine_isImage h
  | i + 1, r, h => by
    unfold searchLinesUp at h
    cases hc : checkLineForEmbed (lines.getD (i + 1) []) with
    | some r' =>
      rw [hc] at h
      rw [Option.some_orElse] at h
      injection h with he
      rw [← he]
      exact checkLine_isImage hc
    | none =>
      rw [hc] at h
      rw [Option.none_orElse] at h
      exact searchLinesUp_isImage lines i r h

theorem findRelevant_isImage {ed : EditorState} {r : EmbedResult}
    (h : findRelevantImageEmbed ed = some r) : isImage r.link = true := by
  unfold findRelevantImageEmbed at h
  cases hc : checkLineForEmbed ed.selection with
  | some r' =>
    rw [hc] at h
    rw [Option.some_orElse] at h
    injection h with he
    rw [← he]
    exact checkLine_isImage hc
  | none =>
    rw [hc] at h
    rw [Option.none_orElse] at h
    exact searchLinesUp_isImage ed.lines ed.cursorLine r h

/-- Claim C9: the Locator's `isImage` holds of a link exactly when its
extension, compared case-insensitively, is one of png, jpg, jpeg, gif,
webp, bmp, svg, pdf; and every embed `findRelevantImageEmbed` returns has
a link satisfying `isImage`. -/
theorem claim_C9 :
    (∀ link : List Char, isImage link = true ↔ isImageSpec link = true) ∧
    (∀ (ed : EditorState) (r : EmbedResult),
      findRelevantImageEmbed ed = some r → isImage r.link = true) :=
  ⟨isImage_iff_spec, fun _ _ h => findRelevant_isImage h⟩

theorem claim_C9_witness :
    isImage sampleEmbed.link = true ∧
    isImageSpec ("photo.JPG".toList) = true :=
  ⟨claim_C9.2 sampleEditor sampleEmbed (by decide),
   (claim_C9.1 ("photo.JPG".toList)).mp (by decide)⟩

/-- Claim C10: a file is part of a folder batch exactly when its name's
extension, compared case-insensitively, is one of png, jpg, jpeg, webp,
gif, bmp, svg; a `.pdf` file never passes the folder filter. -/
theorem claim_C10 :
    (∀ (files : List FolderFile) (f : FolderFile),
      f ∈ selectBatchImages files ↔
        f ∈ files ∧ folderImageSpec f.name = true) ∧
    (∀ name : List Char, isPdfFile name = true →
      folderImageFilter name = false) := by
  constructor
  · intro files f
    unfold selectBatchImages
    rw [List.mem_filter]
    exact and_congr_right fun _ => folder_iff_spec f.name
  · intro name hpdf
    have hsuf : ('.' :: "pdf".toList) <:+ (name.map lowerChar) :=
      List.isSuffixOf_iff_suffix.mp hpdf
    obtain ⟨hmem, hafter⟩ := (dot_suffix_iff (by decide)).mp hsuf
    by_contra hne
    have htrue : folderImageFilter name = true := by
      cases hb : folderImageFilter name
      · exact absurd hb hne
      · rfl
    rcases List.any_eq_true.mp htrue with ⟨e, he, hse⟩
    have hd : ∀ x ∈ folderImageExts, '.' ∉ x := by decide
    obtain ⟨_, hafter'⟩ :=
      (dot_suffix_iff (hd e he)).mp (List.isSuffixOf_iff_suffix.mp hse)
    have heq : e = "pdf".toList := by rw [← hafter', hafter]
    exact absurd (heq ▸ he) (by decide)

theorem claim_C10_witness :
    isPdfFile ("doc.pdf".toList) = true ∧
    folderImageFilter ("doc.pdf".toList) = false ∧
    folderImageSpec ("a.PNG".toList) = true :=
  ⟨by decide, claim_C10.2 ("doc.pdf".toList) (by decide),
   ((claim_C10.1 [⟨"a.PNG".toList⟩] ⟨"a.PNG".toList⟩).mp (by decide)).2⟩

/-- Claim C5: `getProvider` constructs an instance for each of the eleven
enumerated provider identifiers and throws `Unknown provider` for every
identifier outside the set, never defaulting silently. -/
theorem claim_C5 (s : ProviderSettings) :
    (s.provider ∈ providerIds → ∃ inst, getProvider s = .ok inst) ∧
    (s.provider ∉ providerIds →
      getProvider s = .error "Unknown provider") := by
  constructor
  · intro h
    simp only [providerIds, List.mem_cons, List.not_mem_nil, or_false] at h
    rcases h with h | h | h | h | h | h | h | h | h | h | h <;>
      (simp only [getProvider]; rw [h]; exact ⟨_, rfl⟩)
  · intro h
    have hx : ∀ x ∈ providerIds, ¬ s.provider = x :=
      fun x hmem he => h (he ▸ hmem)
    simp only [getProvider]
    rw [if_neg (hx "gemini" (by decide)),
      if_neg (hx "gemini-lite" (by decide)),
      if_neg (hx "gemini-pro" (by decide)),
      if_neg (hx "openai-mini" (by decide)),
      if_neg (hx "openai" (by decide)),
      if_neg (hx "openai-4.1" (by decide)),
      if_neg (hx "openai-4.1-mini" (by decide)),
      if_neg (hx "openai-4.1-nano" (by decide)),
      if_neg (hx "ollama" (by decide)),
      if_neg (hx "lmstudio" (by decide)),
      if_neg (hx "custom" (by decide))]

theorem claim_C5_witness :
    sampleSettings.provider ∈ providerIds ∧
    (∃ inst, getProvider sampleSettings = .ok inst) ∧
    ({ sampleSettings with provider := "bogus" }.provider ∉ providerIds) ∧
    getProvider { sampleSettings with provider := "bogus" }
      = .error "Unknown provider" :=
  ⟨by decide, (claim_C5 sampleSettings).1 (by decide), by decide,
   (claim_C5 { sampleSettings with provider := "bogus" }).2 (by decide)⟩

/-! ### The Payload Preparer -/

/-- Claim C6: `prepareImagePayload` never surfaces an exception: every
failure (failed fetch, missing file handle, rejected read) yields `null`,
so a batch caller can skip the bad item. -/
theorem claim_C6 (img : CollectedImage)
    (fetchO : List Char → Option (List (Fin 256)))
    (readO : VaultFile → Except (List Char) (List (Fin 256)))
    (probe : List (Fin 256) → Option (Nat × Nat))
    (decodeURI : List Char → Except (List Char) (List Char)) :
    (∀ e, prepareImagePayload img fetchO readO probe decodeURI ≠ .error e) ∧
    (img.isExternal = true → fetchO img.source = none →
      prepareImagePayload img fetchO readO probe decodeURI = .ok none) ∧
    (img.isExternal = false → img.file = none →
      prepareImagePayload img fetchO readO probe decodeURI = .ok none) ∧
    (∀ f e, img.isExternal = false → img.file = some f → readO f = .error e →
      prepareImagePayload img fetchO readO probe decodeURI = .ok none) := by
  refine ⟨?_, ?_, ?_, ?_⟩
  · intro e
    unfold prepareImagePayload
    split <;> simp
  · intro hext hf
    have hbody : prepareBody img fetchO readO probe decodeURI = .ok none := by
      unfold prepareBody
      rw [if_pos hext, hf]
    unfold prepareImagePayload
    rw [hbody]
  · intro hext hf
    have hbody : prepareBody img fetchO readO probe decodeURI = .ok none := by
      unfold prepareBody
      rw [if_neg (by simp [hext]), hf]
    unfold prepareImagePayload
    rw [hbody]
  · intro f e hext hf hread
    have hbody : prepareBody img fetchO readO probe decodeURI = .error e := by
      unfold prepareBody
      rw [if_neg (by simp [hext])]
      simp only [hf, hread]
    unfold prepareImagePayload
    rw [hbody]

theorem claim_C6_witness :
    sampleCollected.isExternal = false ∧
    sampleCollected.file = some ⟨"a.png".toList⟩ ∧
    sampleReadErr ⟨"a.png".toList⟩ = .error ("read failed".toList) ∧
    prepareImagePayload sampleCollected (fun _ => none) sampleReadErr
      sampleProbe sampleDecodeURI = .ok none :=
  ⟨rfl, rfl, rfl,
   (claim_C6 sampleCollected (fun _ => none) sampleReadErr sampleProbe
      sampleDecodeURI).2.2.2 ⟨"a.png".toList⟩ ("read failed".toList)
      rfl rfl rfl⟩

theorem prepareFinish_payload (ab : List (Fin 256)) (name source : List Char)
    (probe : List (Fin 256) → Option (Nat × Nat)) :
    (base64Decode (prepareFinish ab name source probe).base64).length
        = (prepareFinish ab name source probe).size ∧
    ¬ ("data:".toList <+: (prepareFinish ab name source probe).base64) := by
  constructor
  · show (base64Decode (base64Encode ab)).length = ab.length
    rw [base64_roundtrip, List.length_map]
  · exact base64Encode_no_dataUrl ab

/-- Claim C7: every `PreparedImage` stores a bare base64 payload (no
data-URL marker) whose decoding has exactly `size` bytes, and every
rasterized PDF page stores the bare base64 PNG with the
`data:image/png;base64,` marker stripped. -/
theorem claim_C7 :
    (∀ (img : CollectedImage)
      (fetchO : List Char → Option (List (Fin 256)))
      (readO : VaultFile → Except (List Char) (List (Fin 256)))
      (probe : List (Fin 256) → Option (Nat × Nat))
      (decodeURI : List Char → Except (List Char) (List Char))
      (p : PreparedImage),
      prepareImagePayload img fetchO readO probe decodeURI = .ok (some p) →
      (base64Decode p.base64).length = p.size ∧
      ¬ ("data:".toList <+: p.base64)) ∧
    (∀ (totalPages maxPages : Nat) (render : Nat → Option RenderedPage)
      (pg : PDFPageImage),
      pg ∈ convertPdfToImages totalPages maxPages render →
      (∃ rp, render pg.pageNumber = some rp ∧
        pg.base64 = base64Encode rp.png) ∧
      ¬ ("data:".toList <+: pg.base64)) := by
  constructor
  · intro img fetchO readO probe decodeURI p hp
    unfold prepareImagePayload at hp
    split at hp
    · next r heq =>
      injection hp with hr
      subst hr
      unfold prepareBody at heq
      split at heq
      · split at heq
        · exact absurd heq (by simp)
        · split at heq
          · exact absurd heq (by simp)
          · injection heq with heq2
            injection heq2 with heq3
            rw [← heq3]
            exact prepareFinish_payload ..
      · split at heq
        · exact absurd heq (by simp)
        · split at heq
          · exact absurd heq (by simp)
          · injection heq with heq2
            injection heq2 with heq3
            rw [← heq3]
            exact prepareFinish_payload ..
    · next e heq => exact absurd hp (by simp)
  · intro totalPages maxPages render pg hmem
    obtain ⟨rp, h1, h2⟩ :=
      convertPdfGo_base64 render (min totalPages maxPages) 1 pg hmem
    refine ⟨⟨rp, h1, h2⟩, ?_⟩
    rw [h2]
    exact base64Encode_no_dataUrl rp.png

theorem claim_C7_witness :
    prepareImagePayload sampleCollected (fun _ => none) sampleReadOk
        sampleProbe sampleDecodeURI = .ok (some samplePrepared) ∧
    (base64Decode samplePrepared.base64).length = samplePrepared.size ∧
    ¬ ("data:".toList <+: samplePrepared.base64) ∧
    samplePage ∈ convertPdfToImages 3 2 sampleRender ∧
    ¬ ("data:".toList <+: samplePage.base64) := by
  refine ⟨rfl, ?_, ?_, by decide, ?_⟩
  · exact (claim_C7.1 sampleCollected (fun _ => none) sampleReadOk
      sampleProbe sampleDecodeURI samplePrepared rfl).1
  · exact (claim_C7.1 sampleCollected (fun _ => none) sampleReadOk
      sampleProbe sampleDecodeURI samplePrepared rfl).2
  · exact (claim_C7.2 3 2 sampleRender samplePage (by decide)).2

/-! ### PDF routing of the embedded-image command -/

theorem embedWithBuffer_pdf {selection : List Char} {embed : EmbedResult}
    {extract' : List Char → Except (List Char) (Option (List Char))}
    {ab : List (Fin 256)} {link : List Char} {buffer : List (Fin 256)}
    (h : embedWithBuffer selection embed extract' ab
      = .processPdf link buffer) :
    (isPdfFile link || isPdfBuffer buffer) = true := by
  unfold embedWithBuffer at h
  split at h
  · next hcond =>
    injection h with h1 h2
    subst h1
    subst h2
    exact hcond
  · split at h
    · simp at h
    · simp at h
    · split at h
      · split at h <;> simp at h
      · simp at h

/-- Claim C2 (amended): the embedded-image command routes a buffer to the
PDF load/parse only when the link has a `.pdf` extension or the buffer
begins with `%PDF-`; a buffer failing both tests is never parsed as a PDF.
The magic-byte check widens acceptance rather than gating it: it does not
reject a `.pdf`-named buffer lacking the magic bytes (see the
counterexample). -/
theorem claim_C2 (ed : EditorState) (cache fileEmb : Option EmbedResult)
    (fetch resolve : List Char → Option (List (Fin 256)))
    (extract' : List Char → Except (List Char) (Option (List Char)))
    (link : List Char) (buffer : List (Fin 256)) :
    embeddedImageCommand ed cache fileEmb fetch resolve extract'
      = .processPdf link buffer →
    (isPdfFile link || isPdfBuffer buffer) = true := by
  intro h
  unfold embeddedImageCommand at h
  split at h
  · simp at h
  · split at h
    · split at h
      · simp at h
      · exact embedWithBuffer_pdf h
    · split at h
      · simp at h
      · exact embedWithBuffer_pdf h

theorem claim_C2_witness :
    (isPdfFile ("doc.pdf".toList) || isPdfBuffer helloBytes) = true :=
  claim_C2 samplePdfEditor none none (fun _ => none) samplePdfResolve
    sampleExtract ("doc.pdf".toList) helloBytes (by decide)

/-- Counterexample to claim C2 as stated: the buffer `hello` does not begin
with `%PDF-`, yet because the embed link is `doc.pdf` the command hands it
to `processPdfFile`, whose `convertPdfToImages` immediately attempts the
`pdfjsLib.getDocument` parse — the magic-byte check never rejected it. -/
theorem claim_C2_counterexample :
    isPdfBuffer helloBytes = false ∧
    embeddedImageCommand samplePdfEditor none none (fun _ => none)
      samplePdfResolve sampleExtract
      = .processPdf ("doc.pdf".toList) helloBytes :=
  ⟨by decide, by decide⟩

/-- Claim C8: with the selection exactly `![[diagram.png]]`, a resolvable
non-PDF file, and a provider answering `Hello world`, the command replaces
the selection with exactly `Hello world` (header/footer templates are not
consulted on this path). -/
theorem embeddedImageCommand_local {ed : EditorState}
    {cache fileEmb : Option EmbedResult}
    {fetch resolve : List Char → Option (List (Fin 256))}
    {extract' : List Char → Except (List Char) (Option (List Char))}
    {embed : EmbedResult} {ab : List (Fin 256)}
    (hfind : findRelevantImageEmbed ed = some embed)
    (hx : embed.isExternal = false)
    (hres : resolve embed.link = some ab) :
    embeddedImageCommand ed cache fileEmb fetch resolve extract'
      = embedWithBuffer ed.selection embed extract' ab := by
  unfold embeddedImageCommand
  rw [hfind, Option.some_orElse, Option.some_orElse]
  show (if embed.isExternal = true then
      match fetch embed.link with
      | none => EmbedCmdOutcome.couldNotRead
      | some ab => embedWithBuffer ed.selection embed extract' ab
    else
      match resolve embed.link with
      | none => EmbedCmdOutcome.fileNotFound
      | some ab => embedWithBuffer ed.selection embed extract' ab)
    = embedWithBuffer ed.selection embed extract' ab
  rw [hx, if_neg (by simp), hres]

theorem claim_C8 (lines : List (List Char)) (cursorLine : Nat)
    (cache fileEmb : Option EmbedResult)
    (fetch : List Char → Option (List (Fin 256)))
    (resolve : List Char → Option (List (Fin 256)))
    (extract' : List Char → Except (List Char) (Option (List Char)))
    (bytes : List (Fin 256))
    (hpdf : isPdfBuffer bytes = false)
    (hres : resolve ("diagram.png".toList) = some bytes)
    (hext : extract' (arrayBufferToBase64 bytes)
      = .ok (some ("Hello world".toList))) :
    embeddedImageCommand ⟨"![[diagram.png]]".toList, lines, cursorLine⟩
      cache fileEmb fetch resolve extract'
      = .replaceSelection ("Hello world".toList) := by
  have hfind : findRelevantImageEmbed
      ⟨"![[diagram.png]]".toList, lines, cursorLine⟩ = some sampleEmbed := by
    unfold findRelevantImageEmbed
    have hc : checkLineForEmbed ("![[diagram.png]]".toList)
        = some sampleEmbed := by decide
    rw [show (⟨"![[diagram.png]]".toList, lines, cursorLine⟩ :
      EditorState).selection = "![[diagram.png]]".toList from rfl, hc,
      Option.some_orElse]
  rw [embeddedImageCommand_local hfind rfl
    (show resolve sampleEmbed.link = some bytes from hres)]
  unfold embedWithBuffer
  have hcond : (isPdfFile sampleEmbed.link || isPdfBuffer bytes) = false := by
    rw [hpdf, show isPdfFile sampleEmbed.link = false from by decide]
    rfl
  rw [hcond, if_neg (by simp),
    show arrayBufferToBase64 bytes = arrayBufferToBase64 bytes from rfl, hext]
  rfl

theorem claim_C8_witness :
    isPdfBuffer ([] : List (Fin 256)) = false ∧
    sampleResolve ("diagram.png".toList) = some [] ∧
    sampleExtract (arrayBufferToBase64 [])
      = .ok (some ("Hello world".toList)) ∧
    embeddedImageCommand ⟨"![[diagram.png]]".toList, [], 0⟩ none none
      (fun _ => none) sampleResolve sampleExtract
      = .replaceSelection ("Hello world".toList) :=
  ⟨by decide, by decide, rfl,
   claim_C8 [] 0 none none (fun _ => none) sampleResolve sampleExtract []
     (by decide) (by decide) rfl⟩

end OCR
